import Mathlib

/-!
Verification of the MBTA subway-info script (mbta_info.py).

The core of the script is embedded shallowly:
  - the graph-building loop of print_connecting_routes, which turns the
    subway data dictionary into two association maps (stop_routes and
    route_stops) via setdefault/append;
  - the BFS function, a route-level breadth-first search over those maps;
  - the statistics computation of print_system_info (longest and shortest
    route, shared stops).

Python dictionaries preserve insertion order, so they are modelled as
association lists of key/value pairs.  The float sentinel math.inf used
as the initial minimum stop count is modelled by Option Nat, with none
standing for infinity (only comparisons are performed on it, never
arithmetic).  The while-True loop of BFS is modelled with explicit fuel;
the fuel bound is proved sufficient below, so the model never actually
runs out of fuel.
-/

/-- Association map from names to lists of names, in insertion order
(models a Python dict of string to list of string). -/
abbrev NameMap := List (String × List String)

/-- First-match lookup (models Python dict subscript, which can fail). -/
def lookupM (m : NameMap) (k : String) : Option (List String) :=
  match m with
  | [] => none
  | (a, vs) :: rest => if a = k then some vs else lookupM rest k

/-- Total lookup returning the empty list for absent keys. -/
def lookupD (m : NameMap) (k : String) : List String :=
  (lookupM m k).getD []

/-- Key membership (models the Python `in` test on a dict). -/
def hasKey (m : NameMap) (k : String) : Bool :=
  match m with
  | [] => false
  | (a, _) :: rest => a = k || hasKey rest k

/-- One `m.setdefault(k, []).append(v)` on an insertion-ordered dict:
append v to the list at the first entry with key k, or add a new entry
(k, [v]) at the end. -/
def appendAt (m : NameMap) (k v : String) : NameMap :=
  match m with
  | [] => [(k, [v])]
  | (a, vs) :: rest =>
      if a = k then (a, vs ++ [v]) :: rest else (a, vs) :: appendAt rest k v

/-- The pair of adjacency maps built by print_connecting_routes. -/
structure RouteGraph where
  stop_routes : NameMap
  route_stops : NameMap
deriving DecidableEq

/-- One (route_name, stop_name) incidence recorded by the building loop:
both maps receive an appended entry. -/
def recordStop (g : RouteGraph) (route_name stop_name : String) : RouteGraph :=
  { stop_routes := appendAt g.stop_routes stop_name route_name,
    route_stops := appendAt g.route_stops route_name stop_name }

/-- The input data for the graph builder: each route contributes its
long_name and the list of stop names of its stops_dict, in iteration
order.  (Route ids and stop ids only serve as dictionary keys in the
Python code; the building loop reads just the names.) -/
abbrev RouteData := List (String × List String)

/-- The graph-building loop of print_connecting_routes (lines 182-191):
for each route, for each of its stops, append route_name to
stop_routes[stop_name] and stop_name to route_stops[route_name]. -/
def buildGraphs (data : RouteData) : RouteGraph :=
  data.foldl
    (fun g p => p.2.foldl (fun h stop_name => recordStop h p.1 stop_name) g)
    { stop_routes := [], route_stops := [] }

/-- State of the BFS while-loop: the FIFO queue of stop names and the
ordered list of visited route names. -/
structure BFSState where
  queue : List String
  visited : List String
deriving DecidableEq

/-- Result of one iteration of the BFS while-loop. -/
inductive StepResult where
  | done (visited : List String)
  | failNoPath
  | keyErr (name : String)
  | cont (s : BFSState)
deriving DecidableEq

/-- The inner for-loop of BFS (lines 244-247): for every route serving the
dequeued stop, if unvisited, extend the queue with all its stops and
append it to visited.  A missing route key is a Python KeyError, modelled
as an error carrying the offending name. -/
def visitRoutes (route_stops : NameMap) (routes : List String)
    (queue visited : List String) :
    Except String (List String × List String) :=
  match routes with
  | [] => .ok (queue, visited)
  | r :: rest =>
      if r ∈ visited then visitRoutes route_stops rest queue visited
      else
        match lookupM route_stops r with
        | none => .error r
        | some stops =>
            visitRoutes route_stops rest (queue ++ stops) (visited ++ [r])

/-- One iteration of the BFS while-loop (lines 233-247): stop successfully
if the end stop is anywhere in the queue; fail if the queue is empty;
otherwise dequeue the front stop and expand its unvisited routes. -/
def bfsStep (route_stops stop_routes : NameMap) (end_name : String)
    (s : BFSState) : StepResult :=
  if end_name ∈ s.queue then .done s.visited
  else
    match s.queue with
    | [] => .failNoPath
    | curr :: rest =>
        match lookupM stop_routes curr with
        | none => .keyErr curr
        | some routes =>
            match visitRoutes route_stops routes rest s.visited with
            | .error r => .keyErr r
            | .ok (q, v) => .cont { queue := q, visited := v }

/-- Outcome of the whole BFS call. -/
inductive BFSResult where
  | ok (visited : List String)
  | unknownStop (name : String)
  | noPathFound (start_name end_name : String)
  | keyError (name : String)
  | outOfFuel
deriving DecidableEq

/-- True exactly for the keyError outcome. -/
def BFSResult.isKeyError : BFSResult → Bool
  | .keyError _ => true
  | _ => false

/-- True exactly for the outOfFuel outcome (a fuel artifact of the model,
proved unreachable below). -/
def BFSResult.isOutOfFuel : BFSResult → Bool
  | .outOfFuel => true
  | _ => false

/-- The BFS while-loop, iterated up to the given amount of fuel. -/
def bfsLoop (route_stops stop_routes : NameMap)
    (start_name end_name : String) : Nat → BFSState → BFSResult
  | 0, _ => .outOfFuel
  | fuel + 1, s =>
      match bfsStep route_stops stop_routes end_name s with
      | .done v => .ok v
      | .failNoPath => .noPathFound start_name end_name
      | .keyErr n => .keyError n
      | .cont t => bfsLoop route_stops stop_routes start_name end_name fuel t

/-- Weight of the not-yet-visited route entries: one plus the stop count
for each entry whose key is unvisited.  Together with the queue length
this is a strictly decreasing measure of the loop. -/
def routeWeight (m : NameMap) (visited : List String) : Nat :=
  match m with
  | [] => 0
  | (a, vs) :: rest =>
      (if a ∈ visited then 0 else 1 + vs.length) + routeWeight rest visited

/-- Fuel that provably suffices for every input: two plus the number of
route entries plus the total stop count over all routes. -/
def bfsFuel (route_stops : NameMap) : Nat :=
  routeWeight route_stops [] + 2

/-- The BFS function (lines 208-249): check that both stop names are
known, then run the while-loop from a queue seeded with the start stop
and an empty visited list. -/
def BFS (route_stops stop_routes : NameMap)
    (start_name end_name : String) : BFSResult :=
  if hasKey stop_routes start_name = false then .unknownStop start_name
  else if hasKey stop_routes end_name = false then .unknownStop end_name
  else
    bfsLoop route_stops stop_routes start_name end_name
      (bfsFuel route_stops) { queue := [start_name], visited := [] }

/-- The values computed and printed by print_system_info. -/
structure SystemInfo where
  max_route : String
  max_stops : Nat
  min_route : String
  min_stops : Option Nat
  shared : NameMap
deriving DecidableEq

/-- The comparison stop_count < min_stops, where min_stops may still be
the math.inf sentinel (none). -/
def ltMin (n : Nat) (m : Option Nat) : Bool :=
  match m with
  | none => true
  | some k => n < k

/-- Accumulator of the statistics loop. -/
structure StatsState where
  max_stops : Nat
  max_route : String
  min_stops : Option Nat
  min_route : String
  stop_routes : NameMap
deriving DecidableEq

/-- One iteration of the statistics loop (lines 143-158): update the
running maximum and minimum by strict comparison, then record every stop
of the route in stop_routes. -/
def statsStep (st : StatsState) (route : String × List String) : StatsState :=
  let stop_count := route.2.length
  let st1 :=
    if stop_count > st.max_stops then
      { st with max_stops := stop_count, max_route := route.1 }
    else st
  let st2 :=
    if ltMin stop_count st1.min_stops then
      { st1 with min_stops := some stop_count, min_route := route.1 }
    else st1
  { st2 with
      stop_routes :=
        route.2.foldl (fun m stop_name => appendAt m stop_name route.1)
          st2.stop_routes }

/-- The statistics computation of print_system_info (lines 128-170):
fold over the routes, then keep only the stops on more than one route. -/
def systemInfo (data : RouteData) : SystemInfo :=
  let st := data.foldl statsStep
    { max_stops := 0, max_route := "", min_stops := none, min_route := "",
      stop_routes := [] }
  { max_route := st.max_route, max_stops := st.max_stops,
    min_route := st.min_route, min_stops := st.min_stops,
    shared := st.stop_routes.filter (fun p => decide (p.2.length > 1)) }

/-- Number of occurrences of a name in a list (multiplicity of an
incidence in an adjacency list). -/
def countOcc (v : String) : List String → Nat
  | [] => 0
  | x :: rest => (if x = v then 1 else 0) + countOcc v rest

/-- The inverse-mapping invariant: every (route, stop) incidence is
recorded with the same multiplicity in both adjacency maps. -/
def InverseInv (g : RouteGraph) : Prop :=
  ∀ r s, countOcc s (lookupD g.route_stops r) = countOcc r (lookupD g.stop_routes s)

/-- Mutual key-closure of the two adjacency maps: routes listed for a
stop are keys of route_stops, and stops listed for a route are keys of
stop_routes. -/
def KeysClosed (route_stops stop_routes : NameMap) : Prop :=
  (∀ s r, r ∈ lookupD stop_routes s → hasKey route_stops r = true) ∧
  (∀ r x, x ∈ lookupD route_stops r → hasKey stop_routes x = true)

/-- Invariant of the BFS loop: every stop name in the queue is a key of
stop_routes. -/
def QueueKeys (stop_routes : NameMap) (s : BFSState) : Prop :=
  ∀ x ∈ s.queue, hasKey stop_routes x = true

/-- The literal two-route graph of the first scenario. -/
def scenarioOneData : RouteData :=
  [("Red", ["A", "B", "C"]), ("Orange", ["C", "D", "E"])]

/-- The literal disconnected graph of the NoPathFound scenario. -/
def scenarioTwoData : RouteData :=
  [("Red", ["A", "B"]), ("Blue", ["C", "D"])]

/-- A graph exhibiting an iteration that neither visits a new route nor
empties the queue. -/
def counterexampleData : RouteData :=
  [("Red", ["A", "B", "C"]), ("Blue", ["D"])]

/-- Built graph of the first scenario. -/
def g1 : RouteGraph := buildGraphs scenarioOneData

/-- Built graph of the NoPathFound scenario. -/
def g2 : RouteGraph := buildGraphs scenarioTwoData

/-- Built graph of the termination counterexample. -/
def g8 : RouteGraph := buildGraphs counterexampleData

/-! ### Lemmas about the association maps -/

lemma lookupD_cons (a : String) (vs : List String) (rest : NameMap)
    (k : String) :
    lookupD ((a, vs) :: rest) k = if a = k then vs else lookupD rest k := by
  by_cases h : a = k <;> simp [lookupD, lookupM, h]

lemma lookupD_appendAt (m : NameMap) (k v k' : String) :
    lookupD (appendAt m k v) k' =
      if k = k' then lookupD m k' ++ [v] else lookupD m k' := by
  induction m with
  | nil =>
      by_cases h : k = k' <;> simp [appendAt, lookupD, lookupM, h]
  | cons p rest ih =>
      obtain ⟨a, vs⟩ := p
      by_cases hak : a = k
      · subst hak
        by_cases hk : a = k'
        · subst hk
          simp [appendAt, lookupD_cons]
        · simp [appendAt, lookupD_cons, hk]
      · by_cases hk2 : a = k'
        · have hkk : ¬ k = k' := fun h => hak (hk2.trans h.symm)
          have hkk2 : ¬ k' = k := fun h => hkk h.symm
          simp [appendAt, hak, lookupD_cons, hk2, hkk, hkk2]
        · simp [appendAt, hak, lookupD_cons, hk2, ih]

lemma countOcc_append (v : String) (l1 l2 : List String) :
    countOcc v (l1 ++ l2) = countOcc v l1 + countOcc v l2 := by
  induction l1 with
  | nil => simp [countOcc]
  | cons x rest ih => simp [countOcc, ih]; omega

lemma countOcc_pos_iff_mem (v : String) (l : List String) :
    0 < countOcc v l ↔ v ∈ l := by
  induction l with
  | nil => simp [countOcc]
  | cons x rest ih =>
      by_cases h : x = v
      · subst h; simp [countOcc]
      · have hvx : ¬ v = x := fun hh => h hh.symm
        simp [countOcc, h, ih, hvx]

lemma hasKey_false_lookupM (m : NameMap) (k : String)
    (h : hasKey m k = false) : lookupM m k = none := by
  induction m with
  | nil => rfl
  | cons p rest ih =>
      obtain ⟨a, vs⟩ := p
      simp [hasKey] at h
      simp [lookupM, h.1, ih h.2]

lemma hasKey_true_lookupM (m : NameMap) (k : String)
    (h : hasKey m k = true) : ∃ vs, lookupM m k = some vs := by
  induction m with
  | nil => simp [hasKey] at h
  | cons p rest ih =>
      obtain ⟨a, vs⟩ := p
      by_cases hak : a = k
      · exact ⟨vs, by simp [lookupM, hak]⟩
      · simp [hasKey, hak] at h
        obtain ⟨ws, hw⟩ := ih h
        exact ⟨ws, by simp [lookupM, hak, hw]⟩

lemma mem_lookupD_hasKey (m : NameMap) (k x : String)
    (h : x ∈ lookupD m k) : hasKey m k = true := by
  by_cases hk : hasKey m k = true
  · exact hk
  · rw [Bool.not_eq_true] at hk
    rw [lookupD, hasKey_false_lookupM m k hk] at h
    simp at h

lemma lookupM_some_lookupD (m : NameMap) (k : String) (vs : List String)
    (h : lookupM m k = some vs) : lookupD m k = vs := by
  rw [lookupD, h]; rfl

/-! ### The inverse-mapping invariant of the graph builder -/

lemma inverseInv_recordStop (g : RouteGraph) (rn sn : String)
    (h : InverseInv g) : InverseInv (recordStop g rn sn) := by
  intro r s
  simp only [recordStop, lookupD_appendAt]
  by_cases hr : rn = r <;> by_cases hs : sn = s <;>
    simp [hr, hs, countOcc_append, countOcc, h r s]

lemma inverseInv_foldStops (rn : String) (stops : List String) :
    ∀ g : RouteGraph, InverseInv g →
      InverseInv (stops.foldl (fun h stop_name => recordStop h rn stop_name) g) := by
  induction stops with
  | nil => intro g hg; exact hg
  | cons x rest ih =>
      intro g hg
      exact ih (recordStop g rn x) (inverseInv_recordStop g rn x hg)

lemma inverseInv_buildGraphs (data : RouteData) :
    InverseInv (buildGraphs data) := by
  have main : ∀ (d : RouteData) (g : RouteGraph), InverseInv g →
      InverseInv (d.foldl
        (fun g p => p.2.foldl (fun h stop_name => recordStop h p.1 stop_name) g) g) := by
    intro d
    induction d with
    | nil => intro g hg; exact hg
    | cons p rest ih =>
        intro g hg
        exact ih _ (inverseInv_foldStops p.1 p.2 g hg)
  refine main data _ ?_
  intro r s
  simp [lookupD, lookupM, countOcc]

lemma buildGraphs_keysClosed (data : RouteData) :
    KeysClosed (buildGraphs data).route_stops (buildGraphs data).stop_routes := by
  have hinv := inverseInv_buildGraphs data
  constructor
  · intro s r hmem
    have h1 : 0 < countOcc r (lookupD (buildGraphs data).stop_routes s) :=
      (countOcc_pos_iff_mem _ _).2 hmem
    rw [← hinv r s] at h1
    have h2 : s ∈ lookupD (buildGraphs data).route_stops r :=
      (countOcc_pos_iff_mem _ _).1 h1
    exact mem_lookupD_hasKey _ _ _ h2
  · intro r x hmem
    have h1 : 0 < countOcc x (lookupD (buildGraphs data).route_stops r) :=
      (countOcc_pos_iff_mem _ _).2 hmem
    rw [hinv r x] at h1
    have h2 : r ∈ lookupD (buildGraphs data).stop_routes x :=
      (countOcc_pos_iff_mem _ _).1 h1
    exact mem_lookupD_hasKey _ _ _ h2

/-! ### Lemmas about the inner visiting loop of BFS -/

lemma routeWeight_mono (m : NameMap) (v v2 : List String)
    (h : ∀ x ∈ v, x ∈ v2) : routeWeight m v2 ≤ routeWeight m v := by
  induction m with
  | nil => exact Nat.le_refl 0
  | cons p rest ih =>
      obtain ⟨a, vs⟩ := p
      by_cases ha : a ∈ v
      · have ha2 : a ∈ v2 := h a ha
        simp only [routeWeight, if_pos ha, if_pos ha2]
        omega
      · by_cases ha2 : a ∈ v2
        · simp only [routeWeight, if_neg ha, if_pos ha2]
          omega
        · simp only [routeWeight, if_neg ha, if_neg ha2]
          omega

lemma routeWeight_visit (m : NameMap) (v : List String) (r : String)
    (stops : List String) (hr : r ∉ v) (hl : lookupM m r = some stops) :
    routeWeight m (v ++ [r]) + (1 + stops.length) ≤ routeWeight m v := by
  induction m with
  | nil => simp [lookupM] at hl
  | cons p rest ih =>
      obtain ⟨a, vs⟩ := p
      have hmono : routeWeight rest (v ++ [r]) ≤ routeWeight rest v :=
        routeWeight_mono rest v (v ++ [r]) (fun x hx => List.mem_append_left _ hx)
      by_cases hak : a = r
      · subst hak
        simp [lookupM] at hl
        subst hl
        have h1 : a ∈ v ++ [a] := List.mem_append_right _ (List.mem_singleton.2 rfl)
        simp only [routeWeight, if_pos h1, if_neg hr]
        omega
      · simp only [lookupM, if_neg hak] at hl
        have hih := ih hl
        have h2 : (a ∈ v ++ [r]) ↔ a ∈ v := by
          simp [List.mem_append, hak]
        by_cases hav : a ∈ v
        · simp only [routeWeight, if_pos (h2.2 hav), if_pos hav]
          omega
        · simp only [routeWeight, if_neg (fun hh => hav (h2.1 hh)), if_neg hav]
          omega

lemma visitRoutes_ok_weight (rs : NameMap) :
    ∀ (routes q v q' v' : List String),
      visitRoutes rs routes q v = .ok (q', v') →
      q'.length + routeWeight rs v' ≤ q.length + routeWeight rs v := by
  intro routes
  induction routes with
  | nil =>
      intro q v q' v' h
      simp only [visitRoutes, Except.ok.injEq, Prod.mk.injEq] at h
      obtain ⟨h1, h2⟩ := h
      subst h1; subst h2
      exact Nat.le_refl _
  | cons r rest ih =>
      intro q v q' v' h
      simp only [visitRoutes] at h
      by_cases hrv : r ∈ v
      · rw [if_pos hrv] at h
        exact ih q v q' v' h
      · rw [if_neg hrv] at h
        cases hl : lookupM rs r with
        | none => rw [hl] at h; simp at h
        | some stops =>
            rw [hl] at h
            simp only at h
            have h1 := ih (q ++ stops) (v ++ [r]) q' v' h
            have h2 := routeWeight_visit rs v r stops hrv hl
            rw [List.length_append] at h1
            omega

lemma visitRoutes_ok_nodup (rs : NameMap) :
    ∀ (routes q v q' v' : List String),
      visitRoutes rs routes q v = .ok (q', v') →
      v.Nodup → v'.Nodup := by
  intro routes
  induction routes with
  | nil =>
      intro q v q' v' h hnd
      simp only [visitRoutes, Except.ok.injEq, Prod.mk.injEq] at h
      obtain ⟨h1, h2⟩ := h
      subst h2; exact hnd
  | cons r rest ih =>
      intro q v q' v' h hnd
      simp only [visitRoutes] at h
      by_cases hrv : r ∈ v
      · rw [if_pos hrv] at h
        exact ih q v q' v' h hnd
      · rw [if_neg hrv] at h
        cases hl : lookupM rs r with
        | none => rw [hl] at h; simp at h
        | some stops =>
            rw [hl] at h
            simp only at h
            refine ih (q ++ stops) (v ++ [r]) q' v' h ?_
            simp [List.nodup_append, hnd, hrv]

lemma visitRoutes_ok_succeeds (rs : NameMap) :
    ∀ (routes q v : List String),
      (∀ r ∈ routes, hasKey rs r = true) →
      ∃ q' v', visitRoutes rs routes q v = .ok (q', v') := by
  intro routes
  induction routes with
  | nil => intro q v _; exact ⟨q, v, rfl⟩
  | cons r rest ih =>
      intro q v hall
      by_cases hrv : r ∈ v
      · obtain ⟨q', v', hok⟩ := ih q v (fun x hx => hall x (List.mem_cons_of_mem _ hx))
        exact ⟨q', v', by simp only [visitRoutes, if_pos hrv]; exact hok⟩
      · obtain ⟨stops, hl⟩ :=
          hasKey_true_lookupM rs r (hall r (List.mem_cons_self _ _))
        obtain ⟨q', v', hok⟩ :=
          ih (q ++ stops) (v ++ [r]) (fun x hx => hall x (List.mem_cons_of_mem _ hx))
        refine ⟨q', v', ?_⟩
        simp only [visitRoutes, if_neg hrv, hl]
        exact hok

lemma visitRoutes_ok_queue (rs : NameMap) :
    ∀ (routes q v q' v' : List String),
      visitRoutes rs routes q v = .ok (q', v') →
      ∀ x ∈ q', x ∈ q ∨ ∃ r stops, lookupM rs r = some stops ∧ x ∈ stops := by
  intro routes
  induction routes with
  | nil =>
      intro q v q' v' h x hx
      simp only [visitRoutes, Except.ok.injEq, Prod.mk.injEq] at h
      obtain ⟨h1, _⟩ := h
      subst h1; exact Or.inl hx
  | cons r rest ih =>
      intro q v q' v' h x hx
      simp only [visitRoutes] at h
      by_cases hrv : r ∈ v
      · rw [if_pos hrv] at h
        exact ih q v q' v' h x hx
      · rw [if_neg hrv] at h
        cases hl : lookupM rs r with
        | none => rw [hl] at h; simp at h
        | some stops =>
            rw [hl] at h
            simp only at h
            rcases ih (q ++ stops) (v ++ [r]) q' v' h x hx with hq | hfound
            · rcases List.mem_append.1 hq with hq1 | hq2
              · exact Or.inl hq1
              · exact Or.inr ⟨r, stops, hl, hq2⟩
            · exact Or.inr hfound

/-! ### Case analysis of one BFS iteration -/

lemma bfsStep_cases (rs sr : NameMap) (e : String) (s : BFSState) :
    (e ∈ s.queue ∧ bfsStep rs sr e s = .done s.visited) ∨
    (e ∉ s.queue ∧ s.queue = [] ∧ bfsStep rs sr e s = .failNoPath) ∨
    (∃ curr rest, e ∉ s.queue ∧ s.queue = curr :: rest ∧
      ((lookupM sr curr = none ∧ bfsStep rs sr e s = .keyErr curr) ∨
       (∃ routes, lookupM sr curr = some routes ∧
         ((∃ r, visitRoutes rs routes rest s.visited = .error r ∧
             bfsStep rs sr e s = .keyErr r) ∨
          (∃ q v, visitRoutes rs routes rest s.visited = .ok (q, v) ∧
             bfsStep rs sr e s = .cont { queue := q, visited := v }))))) := by
  by_cases hmem : e ∈ s.queue
  · exact Or.inl ⟨hmem, by simp [bfsStep, hmem]⟩
  · refine Or.inr ?_
    cases hq : s.queue with
    | nil => exact Or.inl ⟨hq ▸ hmem, rfl, by simp [bfsStep, hmem, hq]⟩
    | cons curr rest =>
        have hmem2 : e ∉ curr :: rest := hq ▸ hmem
        refine Or.inr ⟨curr, rest, hmem2, rfl, ?_⟩
        cases hl : lookupM sr curr with
        | none => exact Or.inl ⟨rfl, by simp [bfsStep, hq, hl, hmem2]⟩
        | some routes =>
            refine Or.inr ⟨routes, rfl, ?_⟩
            cases hv : visitRoutes rs routes rest s.visited with
            | error r =>
                exact Or.inl ⟨r, rfl, by simp [bfsStep, hq, hl, hv, hmem2]⟩
            | ok p =>
                obtain ⟨q, v⟩ := p
                exact Or.inr ⟨q, v, rfl, by simp [bfsStep, hq, hl, hv, hmem2]⟩

lemma bfsStep_done_inv (rs sr : NameMap) (e : String) (s : BFSState)
    (w : List String) (h : bfsStep rs sr e s = .done w) :
    w = s.visited ∧ e ∈ s.queue := by
  rcases bfsStep_cases rs sr e s with ⟨hm, he⟩ | ⟨hm, hq, he⟩ |
    ⟨curr, rest, hm, hq, ⟨hl, he⟩ | ⟨routes, hl, ⟨r, hv, he⟩ | ⟨q, v, hv, he⟩⟩⟩ <;>
    rw [h] at he
  · exact ⟨StepResult.done.inj he, hm⟩
  · exact absurd he (by simp)
  · exact absurd he (by simp)
  · exact absurd he (by simp)
  · exact absurd he (by simp)

lemma bfsStep_fail_iff (rs sr : NameMap) (e : String) (s : BFSState) :
    bfsStep rs sr e s = .failNoPath ↔ s.queue = [] := by
  constructor
  · intro h
    rcases bfsStep_cases rs sr e s with ⟨hm, he⟩ | ⟨hm, hq, he⟩ |
      ⟨curr, rest, hm, hq, ⟨hl, he⟩ | ⟨routes, hl, ⟨r, hv, he⟩ | ⟨q, v, hv, he⟩⟩⟩ <;>
      rw [h] at he
    · exact absurd he (by simp)
    · exact hq
    · exact absurd he (by simp)
    · exact absurd he (by simp)
    · exact absurd he (by simp)
  · intro h
    simp [bfsStep, h]

lemma bfsStep_cont_inv (rs sr : NameMap) (e : String) (s t : BFSState)
    (h : bfsStep rs sr e s = .cont t) :
    ∃ curr rest routes, e ∉ s.queue ∧ s.queue = curr :: rest ∧
      lookupM sr curr = some routes ∧
      visitRoutes rs routes rest s.visited = .ok (t.queue, t.visited) := by
  rcases bfsStep_cases rs sr e s with ⟨hm, he⟩ | ⟨hm, hq, he⟩ |
    ⟨curr, rest, hm, hq, ⟨hl, he⟩ | ⟨routes, hl, ⟨r, hv, he⟩ | ⟨q, v, hv, he⟩⟩⟩ <;>
    rw [h] at he
  · exact absurd he (by simp)
  · exact absurd he (by simp)
  · exact absurd he (by simp)
  · exact absurd he (by simp)
  · have ht : t = { queue := q, visited := v } := StepResult.cont.inj he
    subst ht
    exact ⟨curr, rest, routes, hm, hq, hl, hv⟩

lemma bfsStep_cont_decrease (rs sr : NameMap) (e : String) (s t : BFSState)
    (h : bfsStep rs sr e s = .cont t) :
    t.queue.length + routeWeight rs t.visited <
      s.queue.length + routeWeight rs s.visited := by
  obtain ⟨curr, rest, routes, hm, hq, hl, hv⟩ := bfsStep_cont_inv rs sr e s t h
  have h1 := visitRoutes_ok_weight rs routes rest s.visited t.queue t.visited hv
  rw [hq]
  simp only [List.length_cons]
  omega

lemma bfsStep_cont_nodup (rs sr : NameMap) (e : String) (s t : BFSState)
    (h : bfsStep rs sr e s = .cont t) (hnd : s.visited.Nodup) :
    t.visited.Nodup := by
  obtain ⟨curr, rest, routes, hm, hq, hl, hv⟩ := bfsStep_cont_inv rs sr e s t h
  exact visitRoutes_ok_nodup rs routes rest s.visited t.queue t.visited hv hnd

lemma bfsStep_no_keyErr (rs sr : NameMap) (e : String) (s : BFSState)
    (hC : KeysClosed rs sr) (hQ : QueueKeys sr s) (n : String) :
    bfsStep rs sr e s ≠ .keyErr n := by
  intro h
  rcases bfsStep_cases rs sr e s with ⟨hm, he⟩ | ⟨hm, hq, he⟩ |
    ⟨curr, rest, hm, hq, ⟨hl, he⟩ | ⟨routes, hl, ⟨r, hv, he⟩ | ⟨q, v, hv, he⟩⟩⟩ <;>
    rw [h] at he
  · exact absurd he (by simp)
  · exact absurd he (by simp)
  · have hcurr : hasKey sr curr = true :=
      hQ curr (by rw [hq]; exact List.mem_cons_self _ _)
    obtain ⟨vs, hvs⟩ := hasKey_true_lookupM sr curr hcurr
    rw [hl] at hvs
    exact absurd hvs (by simp)
  · have hall : ∀ x ∈ routes, hasKey rs x = true := by
      intro x hx
      refine hC.1 curr x ?_
      rw [lookupM_some_lookupD sr curr routes hl]
      exact hx
    obtain ⟨q', v', hok⟩ := visitRoutes_ok_succeeds rs routes rest s.visited hall
    rw [hv] at hok
    exact absurd hok (by simp)
  · exact absurd he (by simp)

lemma bfsStep_cont_keys (rs sr : NameMap) (e : String) (s t : BFSState)
    (hC : KeysClosed rs sr) (hQ : QueueKeys sr s)
    (h : bfsStep rs sr e s = .cont t) : QueueKeys sr t := by
  obtain ⟨curr, rest, routes, hm, hq, hl, hv⟩ := bfsStep_cont_inv rs sr e s t h
  intro x hx
  rcases visitRoutes_ok_queue rs routes rest s.visited t.queue t.visited hv x hx with
    hrest | ⟨r, stops, hls, hxs⟩
  · exact hQ x (by rw [hq]; exact List.mem_cons_of_mem _ hrest)
  · refine hC.2 r x ?_
    rw [lookupM_some_lookupD rs r stops hls]
    exact hxs

/-! ### Lemmas about the BFS while-loop -/

lemma bfsLoop_ok_nodup (rs sr : NameMap) (st e : String) :
    ∀ (fuel : Nat) (s : BFSState) (v : List String), s.visited.Nodup →
      bfsLoop rs sr st e fuel s = .ok v → v.Nodup := by
  intro fuel
  induction fuel with
  | zero => intro s v _ h; simp [bfsLoop] at h
  | succ n ih =>
      intro s v hnd h
      simp only [bfsLoop] at h
      cases hstep : bfsStep rs sr e s with
      | done w =>
          rw [hstep] at h
          simp only [] at h
          have hw := (bfsStep_done_inv rs sr e s w hstep).1
          rw [← BFSResult.ok.inj h, hw]
          exact hnd
      | failNoPath => rw [hstep] at h; simp at h
      | keyErr n2 => rw [hstep] at h; simp at h
      | cont t =>
          rw [hstep] at h
          simp only [] at h
          exact ih t v (bfsStep_cont_nodup rs sr e s t hstep hnd) h

lemma bfsLoop_noPath_names (rs sr : NameMap) (st e : String) :
    ∀ (fuel : Nat) (s : BFSState) (a b : String),
      bfsLoop rs sr st e fuel s = .noPathFound a b → a = st ∧ b = e := by
  intro fuel
  induction fuel with
  | zero => intro s a b h; simp [bfsLoop] at h
  | succ n ih =>
      intro s a b h
      simp only [bfsLoop] at h
      cases hstep : bfsStep rs sr e s with
      | done w => rw [hstep] at h; simp at h
      | failNoPath =>
          rw [hstep] at h
          simp only [] at h
          obtain ⟨h1, h2⟩ := BFSResult.noPathFound.inj h
          exact ⟨h1.symm, h2.symm⟩
      | keyErr n2 => rw [hstep] at h; simp at h
      | cont t => rw [hstep] at h; simp only [] at h; exact ih t a b h

lemma bfsLoop_no_outOfFuel (rs sr : NameMap) (st e : String) :
    ∀ (fuel : Nat) (s : BFSState),
      s.queue.length + routeWeight rs s.visited < fuel →
      (bfsLoop rs sr st e fuel s).isOutOfFuel = false := by
  intro fuel
  induction fuel with
  | zero => intro s h; exact absurd h (Nat.not_lt_zero _)
  | succ n ih =>
      intro s h
      simp only [bfsLoop]
      cases hstep : bfsStep rs sr e s with
      | done w => rfl
      | failNoPath => rfl
      | keyErr n2 => rfl
      | cont t =>
          simp only []
          have hd := bfsStep_cont_decrease rs sr e s t hstep
          exact ih t (by omega)

lemma bfsLoop_no_keyError (rs sr : NameMap) (st e : String)
    (hC : KeysClosed rs sr) :
    ∀ (fuel : Nat) (s : BFSState), QueueKeys sr s →
      (bfsLoop rs sr st e fuel s).isKeyError = false := by
  intro fuel
  induction fuel with
  | zero => intro s _; rfl
  | succ n ih =>
      intro s hQ
      simp only [bfsLoop]
      cases hstep : bfsStep rs sr e s with
      | done w => rfl
      | failNoPath => rfl
      | keyErr n2 => exact absurd hstep (bfsStep_no_keyErr rs sr e s hC hQ n2)
      | cont t =>
          simp only []
          exact ih t (bfsStep_cont_keys rs sr e s t hC hQ hstep)

/-! ### Claim theorems -/

/-- C1: on the graph with routes Red: [A, B, C] and Orange: [C, D, E],
BFS from A to E returns exactly the visited-route sequence [Red, Orange];
Red is visited on the first iteration (when A is dequeued), Orange is
visited on the iteration that dequeues C, and as soon as E is in the
queue the loop stops with that sequence. -/
theorem bfs_scenario_red_orange :
    BFS g1.route_stops g1.stop_routes "A" "E" = .ok ["Red", "Orange"] ∧
    bfsStep g1.route_stops g1.stop_routes "E"
      { queue := ["A"], visited := [] } =
      .cont { queue := ["A", "B", "C"], visited := ["Red"] } ∧
    bfsStep g1.route_stops g1.stop_routes "E"
      { queue := ["C"], visited := ["Red"] } =
      .cont { queue := ["C", "D", "E"], visited := ["Red", "Orange"] } ∧
    bfsStep g1.route_stops g1.stop_routes "E"
      { queue := ["C", "D", "E"], visited := ["Red", "Orange"] } =
      .done ["Red", "Orange"] := by
  decide

/-- C2: if the end stop name appears anywhere in the queue, the loop
iteration stops successfully with the current visited list, without
dequeuing or processing anything; and whenever BFS succeeds, the returned
sequence of visited route names contains each route name at most once. -/
theorem bfs_success_visited_nodup :
    ∀ (rs sr : NameMap) (st e : String) (v q vis : List String),
      (BFS rs sr st e = .ok v → v.Nodup) ∧
      (e ∈ q →
        bfsStep rs sr e { queue := q, visited := vis } = .done vis) := by
  intro rs sr st e v q vis
  constructor
  · intro h
    unfold BFS at h
    by_cases h1 : hasKey sr st = false
    · rw [if_pos h1] at h; simp at h
    · rw [if_neg h1] at h
      by_cases h2 : hasKey sr e = false
      · rw [if_pos h2] at h; simp at h
      · rw [if_neg h2] at h
        exact bfsLoop_ok_nodup rs sr st e (bfsFuel rs) _ v List.nodup_nil h
  · intro he
    simp [bfsStep, he]

/-- C2 witness: the successful search of the first scenario has a
duplicate-free result, and a queue already holding the end stop makes the
iteration stop at once. -/
theorem bfs_success_visited_nodup_witness :
    (["Red", "Orange"] : List String).Nodup ∧
    bfsStep g1.route_stops g1.stop_routes "E"
      { queue := ["E"], visited := [] } = .done [] :=
  ⟨(bfs_success_visited_nodup g1.route_stops g1.stop_routes "A" "E"
      ["Red", "Orange"] ["E"] []).1 (by decide),
   (bfs_success_visited_nodup g1.route_stops g1.stop_routes "A" "E"
      ["Red", "Orange"] ["E"] []).2 (by decide)⟩

/-- C3 counterexample: on the empty graph the computed minimum stop count
is the infinity sentinel (math.inf, modelled as none), not 0, so the
shortest route is not reported as (empty name, 0 stops). -/
theorem systemInfo_empty_min_not_zero :
    (systemInfo []).min_stops ≠ some 0 := by decide

/-- C3 (amended): on the empty graph the statistics computation raises no
exception and reports the longest route as (empty name, 0 stops), the
shortest route as (empty name, math.inf stops) - the infinity sentinel,
not 0 stops - and no shared stops. -/
theorem systemInfo_empty_graph :
    systemInfo [] =
      { max_route := "", max_stops := 0, min_route := "",
        min_stops := none, shared := [] } := by decide

/-- C4: BFS fails with an UnknownStop error naming the start stop when
the start name is not a key of stop_routes, and - the start name being
checked first - with an UnknownStop error naming the end stop when the
start is known but the end name is not; no traversal happens in either
case because the function returns before entering the loop. -/
theorem bfs_unknown_stop :
    ∀ (rs sr : NameMap) (st e : String),
      (hasKey sr st = false → BFS rs sr st e = .unknownStop st) ∧
      (hasKey sr st = true → hasKey sr e = false →
        BFS rs sr st e = .unknownStop e) := by
  intro rs sr st e
  constructor
  · intro h
    simp [BFS, h]
  · intro h1 h2
    simp [BFS, h1, h2]

/-- C4 witness: unknown start, unknown end, and both unknown (the start
is reported first) on the first scenario graph. -/
theorem bfs_unknown_stop_witness :
    BFS g1.route_stops g1.stop_routes "Z" "A" = .unknownStop "Z" ∧
    BFS g1.route_stops g1.stop_routes "A" "Z" = .unknownStop "Z" ∧
    BFS g1.route_stops g1.stop_routes "Y" "Z" = .unknownStop "Y" :=
  ⟨(bfs_unknown_stop g1.route_stops g1.stop_routes "Z" "A").1 (by decide),
   (bfs_unknown_stop g1.route_stops g1.stop_routes "A" "Z").2
     (by decide) (by decide),
   (bfs_unknown_stop g1.route_stops g1.stop_routes "Y" "Z").1 (by decide)⟩

/-- C5: an iteration fails exactly when the queue is empty (the end stop
cannot be in the queue then, so the queue was exhausted without the end
stop ever surviving in it); the NoPathFound outcome always carries the
two queried stop names; and on the disconnected graph with routes
Red: [A, B] and Blue: [C, D], searching from A to D yields NoPathFound. -/
theorem bfs_no_path_found :
    ∀ (rs sr : NameMap) (st e a b : String) (fuel : Nat)
      (q vis : List String) (s : BFSState),
      (bfsStep rs sr e { queue := q, visited := vis } = .failNoPath ↔
        q = []) ∧
      (bfsLoop rs sr st e fuel s = .noPathFound a b → a = st ∧ b = e) ∧
      BFS g2.route_stops g2.stop_routes "A" "D" = .noPathFound "A" "D" := by
  intro rs sr st e a b fuel q vis s
  exact ⟨bfsStep_fail_iff rs sr e { queue := q, visited := vis },
    bfsLoop_noPath_names rs sr st e fuel s a b, by decide⟩

/-- C5 witness: the empty queue makes the iteration fail, and a concrete
failing loop run carries both queried names. -/
theorem bfs_no_path_found_witness :
    bfsStep g2.route_stops g2.stop_routes "D"
      { queue := [], visited := [] } = .failNoPath ∧
    ("A" = "A" ∧ "D" = "D") :=
  ⟨(bfs_no_path_found g2.route_stops g2.stop_routes "A" "D" "A" "D" 1 [] []
      { queue := [], visited := [] }).1.mpr rfl,
   (bfs_no_path_found g2.route_stops g2.stop_routes "A" "D" "A" "D" 1 [] []
      { queue := [], visited := [] }).2.1 (by decide)⟩

/-- C6: for every input data list, the two mappings built by the
graph-building loop are inverses: the multiplicity of stop s in
route_stops[r] equals the multiplicity of route r in stop_routes[s], and
in particular s appears in route_stops[r] iff r appears in
stop_routes[s]. -/
theorem buildGraphs_inverse :
    ∀ (data : RouteData) (r s : String),
      countOcc s (lookupD (buildGraphs data).route_stops r) =
        countOcc r (lookupD (buildGraphs data).stop_routes s) ∧
      (s ∈ lookupD (buildGraphs data).route_stops r ↔
        r ∈ lookupD (buildGraphs data).stop_routes s) := by
  intro data r s
  have h := inverseInv_buildGraphs data r s
  refine ⟨h, ?_, ?_⟩
  · intro hm
    have h1 : 0 < countOcc s (lookupD (buildGraphs data).route_stops r) :=
      (countOcc_pos_iff_mem _ _).2 hm
    rw [h] at h1
    exact (countOcc_pos_iff_mem _ _).1 h1
  · intro hm
    have h1 : 0 < countOcc r (lookupD (buildGraphs data).stop_routes s) :=
      (countOcc_pos_iff_mem _ _).2 hm
    rw [← h] at h1
    exact (countOcc_pos_iff_mem _ _).1 h1

/-- C6 witness: the inverse property at the incidence (Red, C) of the
first scenario graph. -/
theorem buildGraphs_inverse_witness :
    countOcc "C" (lookupD (buildGraphs scenarioOneData).route_stops "Red") =
      countOcc "Red" (lookupD (buildGraphs scenarioOneData).stop_routes "C") ∧
    ("C" ∈ lookupD (buildGraphs scenarioOneData).route_stops "Red" ↔
      "Red" ∈ lookupD (buildGraphs scenarioOneData).stop_routes "C") :=
  buildGraphs_inverse scenarioOneData "Red" "C"

/-- C7: both the maximum and the minimum comparison are strict, so a
route whose stop count ties the current maximum (resp. minimum) leaves
the recorded route and count unchanged - ties resolve to the
first-encountered route in input iteration order; on the literal graph
Red: [A, B], Orange: [B, C], Red is reported as both longest and
shortest with 2 stops each and the shared stops are exactly
B: [Red, Orange]. -/
theorem stats_tie_break :
    ∀ (st : StatsState) (name : String) (stops : List String),
      (stops.length = st.max_stops →
        (statsStep st (name, stops)).max_route = st.max_route ∧
        (statsStep st (name, stops)).max_stops = st.max_stops) ∧
      (st.min_stops = some stops.length →
        (statsStep st (name, stops)).min_route = st.min_route ∧
        (statsStep st (name, stops)).min_stops = st.min_stops) ∧
      systemInfo [("Red", ["A", "B"]), ("Orange", ["B", "C"])] =
        { max_route := "Red", max_stops := 2, min_route := "Red",
          min_stops := some 2, shared := [("B", ["Red", "Orange"])] } := by
  intro st name stops
  refine ⟨?_, ?_, by decide⟩
  · intro h
    have hmax : ¬ stops.length > st.max_stops := by omega
    by_cases hmin : ltMin stops.length st.min_stops = true <;>
      simp [statsStep, hmax, hmin]
  · intro h
    have hmin : ltMin stops.length st.min_stops = false := by
      simp [ltMin, h]
    by_cases hmax : stops.length > st.max_stops <;>
      simp [statsStep, hmax, hmin]

/-- C7 witness: a second route tying at 2 stops leaves Red recorded as
both longest and shortest, and the literal statistics equation holds. -/
theorem stats_tie_break_witness :
    ((statsStep { max_stops := 2, max_route := "Red", min_stops := some 2, min_route := "Red", stop_routes := [] } ("Orange", ["B", "C"])).max_route = "Red" ∧
      (statsStep { max_stops := 2, max_route := "Red", min_stops := some 2, min_route := "Red", stop_routes := [] } ("Orange", ["B", "C"])).max_stops = 2) ∧
    ((statsStep { max_stops := 2, max_route := "Red", min_stops := some 2, min_route := "Red", stop_routes := [] } ("Orange", ["B", "C"])).min_route = "Red" ∧
      (statsStep { max_stops := 2, max_route := "Red", min_stops := some 2, min_route := "Red", stop_routes := [] } ("Orange", ["B", "C"])).min_stops = some 2) ∧
    systemInfo [("Red", ["A", "B"]), ("Orange", ["B", "C"])] =
      { max_route := "Red", max_stops := 2, min_route := "Red",
        min_stops := some 2, shared := [("B", ["Red", "Orange"])] } :=
  ⟨(stats_tie_break { max_stops := 2, max_route := "Red", min_stops := some 2, min_route := "Red", stop_routes := [] } "Orange" ["B", "C"]).1 (by decide),
   (stats_tie_break { max_stops := 2, max_route := "Red", min_stops := some 2, min_route := "Red", stop_routes := [] } "Orange" ["B", "C"]).2.1 (by decide),
   (stats_tie_break { max_stops := 2, max_route := "Red", min_stops := some 2, min_route := "Red", stop_routes := [] } "Orange" ["B", "C"]).2.2⟩

/-- C8 counterexample: on the graph Red: [A, B, C], Blue: [D] with end
stop D, the iteration after the first one (a state the loop actually
reaches from the seed queue [A]) dequeues A again, visits no new route
and leaves the queue non-empty - so it neither strictly grows the
visited-routes set nor exhausts the queue, refuting the claimed
dichotomy (and with it the O(number of routes) iteration bound). -/
theorem bfs_iteration_no_growth :
    bfsStep g8.route_stops g8.stop_routes "D"
      { queue := ["A"], visited := [] } =
      .cont { queue := ["A", "B", "C"], visited := ["Red"] } ∧
    bfsStep g8.route_stops g8.stop_routes "D"
      { queue := ["A", "B", "C"], visited := ["Red"] } =
      .cont { queue := ["B", "C"], visited := ["Red"] } ∧
    ¬ ((["Red"] : List String) ≠ ["Red"] ∨
        (["B", "C"] : List String) = []) := by
  decide

/-- C8 (amended): every continuing iteration strictly decreases the
measure queue length plus weight of unvisited route entries (each route
is visited at most once, contributing one plus its stop count to the
weight), so the loop terminates within bfsFuel route_stops = number of
route entries + total stop count + 2 iterations - a bound linear in
routes plus total stops, not in routes alone - and BFS never exhausts
that fuel. -/
theorem bfs_termination_measure :
    ∀ (rs sr : NameMap) (e : String) (s t : BFSState) (st en : String),
      (bfsStep rs sr e s = .cont t →
        t.queue.length + routeWeight rs t.visited <
          s.queue.length + routeWeight rs s.visited) ∧
      (BFS rs sr st en).isOutOfFuel = false := by
  intro rs sr e s t st en
  constructor
  · exact bfsStep_cont_decrease rs sr e s t
  · unfold BFS
    by_cases h1 : hasKey sr st = false
    · rw [if_pos h1]; rfl
    · rw [if_neg h1]
      by_cases h2 : hasKey sr en = false
      · rw [if_pos h2]; rfl
      · rw [if_neg h2]
        refine bfsLoop_no_outOfFuel rs sr st en (bfsFuel rs) _ ?_
        simp only [bfsFuel, List.length_singleton]
        omega

/-- C8 witness: the strict measure decrease at the counterexample
iteration, and fuel sufficiency on that concrete search. -/
theorem bfs_termination_measure_witness :
    ({ queue := ["B", "C"], visited := ["Red"] } : BFSState).queue.length +
        routeWeight g8.route_stops ["Red"] <
      ({ queue := ["A", "B", "C"], visited := ["Red"] } : BFSState).queue.length +
        routeWeight g8.route_stops ["Red"] ∧
    (BFS g8.route_stops g8.stop_routes "A" "D").isOutOfFuel = false :=
  ⟨(bfs_termination_measure g8.route_stops g8.stop_routes "D"
      { queue := ["A", "B", "C"], visited := ["Red"] }
      { queue := ["B", "C"], visited := ["Red"] } "A" "D").1 (by decide),
   (bfs_termination_measure g8.route_stops g8.stop_routes "D"
      { queue := ["A", "B", "C"], visited := ["Red"] }
      { queue := ["B", "C"], visited := ["Red"] } "A" "D").2⟩

/-- C9: for every graph and every known stop name s, BFS from s to s
returns the empty route sequence: the queue is seeded with the start
stop, so the end-in-queue check succeeds on the very first iteration
before any route is visited. -/
theorem bfs_start_eq_end :
    ∀ (rs sr : NameMap) (s : String), hasKey sr s = true →
      BFS rs sr s s = .ok [] := by
  intro rs sr s h
  unfold BFS
  rw [if_neg (by simp [h]), if_neg (by simp [h])]
  show bfsLoop rs sr s s (routeWeight rs [] + 1 + 1)
    { queue := [s], visited := [] } = .ok []
  have hstep : bfsStep rs sr s { queue := [s], visited := [] } = .done [] := by
    simp [bfsStep]
  simp only [bfsLoop]
  rw [hstep]

/-- C9 witness: searching from A to A on the first scenario graph
returns the empty route sequence. -/
theorem bfs_start_eq_end_witness :
    BFS g1.route_stops g1.stop_routes "A" "A" = .ok [] :=
  bfs_start_eq_end g1.route_stops g1.stop_routes "A" (by decide)

/-- C10: when BFS runs on the pair of mappings built by the
graph-building loop, no dictionary lookup inside the loop can fail:
every dequeued stop is a key of stop_routes and every route name in a
stop_routes value is a key of route_stops, so the KeyError outcome is
unreachable. -/
theorem bfs_built_graph_no_keyError :
    ∀ (data : RouteData) (st en : String),
      (BFS (buildGraphs data).route_stops (buildGraphs data).stop_routes
        st en).isKeyError = false := by
  intro data st en
  unfold BFS
  by_cases h1 : hasKey (buildGraphs data).stop_routes st = false
  · rw [if_pos h1]; rfl
  · rw [if_neg h1]
    by_cases h2 : hasKey (buildGraphs data).stop_routes en = false
    · rw [if_pos h2]; rfl
    · rw [if_neg h2]
      refine bfsLoop_no_keyError _ _ st en (buildGraphs_keysClosed data)
        (bfsFuel _) _ ?_
      intro x hx
      have hxs : x = st := by simpa using hx
      have h1t : hasKey (buildGraphs data).stop_routes st = true := by
        cases hk : hasKey (buildGraphs data).stop_routes st
        · exact absurd hk h1
        · rfl
      rw [hxs]
      exact h1t
